import Mathlib

/-!
Verification of the incremental/padded Merkle tree engine of this repository
(console/program merkle_tree). The engine's own source file is not present in
the sampled material (only its test suite is), so the definitions below are
modelled from the specification text, and checked against the behaviour the
test suite pins down (heap layout, padding chain shape, append growth, proof
shape and verification).

Digests are an abstract type with decidable equality; the two hasher
capabilities are records of total functions, matching the contract that hash
evaluation itself never fails.
-/

namespace SnarkVM

/-- Modelled from the spec: the LeafHash capability contract (section 4.1) of the
missing merkle_tree module. It maps one application-defined leaf value to a
field digest; evaluation is total. -/
structure LeafHasher (α β : Type) where
  hash : α → β

/-- Modelled from the spec: the PathHash capability contract (section 4.1) of the
missing merkle_tree module. It combines two digests into a parent digest and
supplies the canonical digest of an empty subtree; evaluation is total. -/
structure PathHasher (β : Type) where
  hash : β → β → β
  hash_empty : β

/-- Modelled from the spec: the error taxonomy (section 7) of the missing
merkle_tree module. SetupError is omitted because hash evaluation is total
here and setup is out of scope. -/
inductive TreeError where
  | invalidDepth
  | capacityExceeded
  | leafMismatch
deriving DecidableEq, Repr

/-- Fuel-driven ceiling log base 2: the auxiliary recursion. -/
def clog2Aux : Nat → Nat → Nat
  | 0, _ => 0
  | fuel + 1, n => if n ≤ 1 then 0 else clog2Aux fuel ((n + 1) / 2) + 1

/-- The smallest d with n le 2 ^ d (ceiling log base 2). -/
def ceilLog2 (n : Nat) : Nat := clog2Aux n n

/-- Modelled from the spec: effective_depth (section 3), the smallest integer d
such that 2 ^ d covers number_of_leaves, with minimum 1. -/
def effectiveDepth (n : Nat) : Nat := max 1 (ceilLog2 n)

/-- One bottom-up reduction step: pair adjacent entries and combine each pair
(construction step 4 of section 4.2). -/
def combineLevel (ph : PathHasher β) : List β → List β
  | a :: b :: rest => ph.hash a b :: combineLevel ph rest
  | _ => []

/-- Iterated per-level reduction: d sequential applications of combineLevel. -/
def combineIter (ph : PathHasher β) : Nat → List β → List β
  | 0, lvl => lvl
  | d + 1, lvl => combineIter ph d (combineLevel ph lvl)

/-- All levels of the dense region, top level first and the given bottom level
last; flattening this list gives the implicit-binary-heap array of section 3. -/
def buildLevels (ph : PathHasher β) : Nat → List β → List (List β)
  | 0, lvl => [lvl]
  | d + 1, lvl => buildLevels ph d (combineLevel ph lvl) ++ [lvl]

/-- Modelled from the spec: the leaf-level digest sequence padded on the right
with hash_empty up to 2 ^ d entries (construction step 3 of section 4.2). -/
def paddedLeafLevel (ph : PathHasher β) (d : Nat) (hashed : List β) : List β :=
  hashed ++ List.replicate (2 ^ d - hashed.length) ph.hash_empty

/-- Modelled from the spec: the dense inner_tree array (sections 3 and 4.2),
laid out as an implicit binary heap, built from the hashed leaves at effective
depth d. -/
def buildTree (ph : PathHasher β) (d : Nat) (hashed : List β) : List β :=
  (buildLevels ph d (paddedLeafLevel ph d hashed)).flatten

/-- Modelled from the spec: the padding chain (invariant I4 of section 3). The
first entry combines the dense region's top entry with hash_empty; each
subsequent entry combines the previous entry's combination result with
hash_empty again; every entry's second component is hash_empty. -/
def buildPadding (ph : PathHasher β) : β → Nat → List (β × β)
  | _, 0 => []
  | top, k + 1 =>
    (ph.hash top ph.hash_empty, ph.hash_empty) :: buildPadding ph (ph.hash top ph.hash_empty) k

/-- Modelled from the spec: the MerkleTree state (section 3) of the missing
merkle_tree module: the committed-leaf count, the dense heap array, and the
sparse padding chain. DEPTH, a const generic in the original, is carried as a
field. -/
structure MerkleTree (β : Type) where
  depth : Nat
  number_of_leaves : Nat
  tree : List β
  padding_tree : List (β × β)
deriving DecidableEq, Repr

/-- Modelled from the spec: MerkleTree construction (section 4.2) of the missing
merkle_tree module: checks DEPTH ge 1 and capacity, hashes every leaf, builds
the dense region at the effective depth and the padding chain above it. -/
def MerkleTree.new (lh : LeafHasher α β) (ph : PathHasher β) (depth : Nat)
    (leaves : List α) : Except TreeError (MerkleTree β) :=
  if depth = 0 then .error .invalidDepth
  else if 2 ^ depth < leaves.length then .error .capacityExceeded
  else
    let hashed := leaves.map lh.hash
    let d := effectiveDepth leaves.length
    let tr := buildTree ph d hashed
    .ok ⟨depth, leaves.length, tr, buildPadding ph (tr.headD ph.hash_empty) (depth - d - 1)⟩

/-- Modelled from the spec: root retrieval (invariant I5 and section 4.3). The
root is the dense top when effective_depth equals DEPTH, and otherwise the
final combination on top of the padding chain (or of the dense top with
hash_empty when the chain is empty). -/
def MerkleTree.root (ph : PathHasher β) (t : MerkleTree β) : β :=
  if t.depth = effectiveDepth t.number_of_leaves then t.tree.headD ph.hash_empty
  else
    match t.padding_tree.getLast? with
    | some pr => ph.hash pr.1 pr.2
    | none => ph.hash (t.tree.headD ph.hash_empty) ph.hash_empty

/-- Modelled from the spec: append (section 4.4) of the missing merkle_tree
module, as its functional summary: after the capacity check, the committed leaf
hashes stored at the dense leaf level are extended with the hashes of the new
leaves, and the dense region and padding chain are reformed at the new
effective depth (both regimes of the incremental algorithm produce exactly this
result; the prior tree value is not mutated). -/
def MerkleTree.append (lh : LeafHasher α β) (ph : PathHasher β) (t : MerkleTree β)
    (newLeaves : List α) : Except TreeError (MerkleTree β) :=
  if 2 ^ t.depth < t.number_of_leaves + newLeaves.length then .error .capacityExceeded
  else
    let d := effectiveDepth t.number_of_leaves
    let oldHashed := (t.tree.drop (2 ^ d - 1)).take t.number_of_leaves
    let hashed := oldHashed ++ newLeaves.map lh.hash
    let n := t.number_of_leaves + newLeaves.length
    let d2 := effectiveDepth n
    let tr := buildTree ph d2 hashed
    .ok ⟨t.depth, n, tr, buildPadding ph (tr.headD ph.hash_empty) (t.depth - d2 - 1)⟩

/-- Modelled from the spec: a MerkleProof (section 3): the proved position and
an ordered sibling list. -/
structure MerkleProof (β : Type) where
  leaf_index : Nat
  siblings : List β
deriving DecidableEq, Repr

/-- Sibling digests along the dense path: at each dense level the entry paired
with the current node (index xor 1), recursing on the parent index. -/
def pathSiblings (ph : PathHasher β) : Nat → List β → Nat → List β
  | 0, _, _ => []
  | d + 1, lvl, i =>
    (if i % 2 = 0 then lvl.getD (i + 1) ph.hash_empty else lvl.getD (i - 1) ph.hash_empty)
      :: pathSiblings ph d (combineLevel ph lvl) (i / 2)

/-- Modelled from the spec: proof generation (section 4.5) of the missing
merkle_tree module: requires the index in range and the supplied leaf to hash
to the stored digest (LeafMismatch otherwise); collects the dense siblings and
then one hash_empty sibling per remaining level up to DEPTH. -/
def MerkleTree.prove [DecidableEq β] (lh : LeafHasher α β) (ph : PathHasher β)
    (t : MerkleTree β) (i : Nat) (leaf : α) : Except TreeError (MerkleProof β) :=
  let d := effectiveDepth t.number_of_leaves
  let leafLevel := t.tree.drop (2 ^ d - 1)
  if i < t.number_of_leaves then
    if leafLevel.getD i ph.hash_empty = lh.hash leaf then
      .ok ⟨i, pathSiblings ph d leafLevel i ++ List.replicate (t.depth - d) ph.hash_empty⟩
    else .error .leafMismatch
  else .error .leafMismatch

/-- Bottom-up fold of a sibling list: the index's low bit decides whether the
running digest is the left or the right input of each combination. -/
def foldSiblings (ph : PathHasher β) : Nat → List β → β → β
  | _, [], h => h
  | i, s :: rest, h =>
    foldSiblings ph (i / 2) rest (if i % 2 = 0 then ph.hash h s else ph.hash s h)

/-- Modelled from the spec: proof verification (section 4.6) of the missing
merkle_tree module: recompute the leaf digest, fold the siblings bottom-up
guided by the index bits, and compare with the claimed root. -/
def MerkleProof.verify [DecidableEq β] (lh : LeafHasher α β) (ph : PathHasher β)
    (p : MerkleProof β) (claimedRoot : β) (leaf : α) : Bool :=
  foldSiblings ph p.leaf_index p.siblings (lh.hash leaf) = claimedRoot

/-- Iterated combination with hash_empty, innermost first: the digest obtained
from x after climbing k all-vacant levels. -/
def padIter (ph : PathHasher β) : Nat → β → β
  | 0, x => x
  | k + 1, x => padIter ph k (ph.hash x ph.hash_empty)

/-- The dense leaf level: the final 2 ^ effective_depth entries of the heap
array (the segment the proof generator reads the committed digests from). -/
def MerkleTree.leafLevel (t : MerkleTree β) : List β :=
  t.tree.drop (2 ^ effectiveDepth t.number_of_leaves - 1)

/-- Reachability invariant: the tree is exactly what construction produces from
some hashed-leaf sequence of the committed length, within depth and capacity. -/
def WF (ph : PathHasher β) (t : MerkleTree β) : Prop :=
  1 ≤ t.depth ∧ t.number_of_leaves ≤ 2 ^ t.depth ∧
    ∃ hashed : List β, hashed.length = t.number_of_leaves ∧
      t.tree = buildTree ph (effectiveDepth t.number_of_leaves) hashed ∧
      t.padding_tree =
        buildPadding ph (t.tree.headD ph.hash_empty)
          (t.depth - effectiveDepth t.number_of_leaves - 1)

/-- Concrete example leaf hasher on naturals, used to instantiate theorems with
hypotheses at concrete inputs. -/
def natLeafHasher : LeafHasher Nat Nat := ⟨fun n => n + 100⟩

/-- Concrete example path hasher on naturals, used to instantiate theorems with
hypotheses at concrete inputs. -/
def natPathHasher : PathHasher Nat := ⟨fun a b => 2 * a + 3 * b + 1, 0⟩

/-! ### Arithmetic facts about the ceiling logarithm -/

theorem clog2Aux_congr :
    ∀ n f1 f2, n ≤ f1 → n ≤ f2 → clog2Aux f1 n = clog2Aux f2 n := by
  intro n
  induction n using Nat.strong_induction_on with
  | _ n ih =>
    intro f1 f2 h1 h2
    by_cases hn : n ≤ 1
    · match f1, f2 with
      | 0, 0 => rfl
      | 0, g + 1 => simp [clog2Aux, hn]
      | g + 1, 0 => simp [clog2Aux, hn]
      | g + 1, g2 + 1 => simp [clog2Aux, hn]
    · obtain ⟨g1, rfl⟩ : ∃ g, f1 = g + 1 := ⟨f1 - 1, by omega⟩
      obtain ⟨g2, rfl⟩ : ∃ g, f2 = g + 1 := ⟨f2 - 1, by omega⟩
      simp only [clog2Aux, if_neg hn]
      have hrec : (n + 1) / 2 < n := by omega
      rw [ih ((n + 1) / 2) hrec g1 g2 (by omega) (by omega)]

theorem ceilLog2_of_le_one (h : n ≤ 1) : ceilLog2 n = 0 := by
  match n, h with
  | 0, _ => rfl
  | 1, _ => rfl

theorem ceilLog2_of_two_le (h : 2 ≤ n) : ceilLog2 n = ceilLog2 ((n + 1) / 2) + 1 := by
  match n, h with
  | m + 2, _ =>
    show clog2Aux (m + 2) (m + 2) = _
    rw [show clog2Aux (m + 2) (m + 2) = clog2Aux (m + 1) ((m + 2 + 1) / 2) + 1 by
      simp [clog2Aux]]
    rw [clog2Aux_congr ((m + 2 + 1) / 2) (m + 1) ((m + 2 + 1) / 2) (by omega) (le_refl _)]
    rfl

theorem le_two_pow_ceilLog2 : ∀ n, n ≤ 2 ^ ceilLog2 n := by
  intro n
  induction n using Nat.strong_induction_on with
  | _ n ih =>
    by_cases hn : n ≤ 1
    · rw [ceilLog2_of_le_one hn]; simpa using hn
    · rw [ceilLog2_of_two_le (by omega)]
      have hrec : (n + 1) / 2 < n := by omega
      have h2 := ih ((n + 1) / 2) hrec
      have hp : 2 ^ (ceilLog2 ((n + 1) / 2) + 1) = 2 ^ ceilLog2 ((n + 1) / 2) * 2 :=
        pow_succ 2 _
      omega

theorem ceilLog2_le_of_le_pow : ∀ n k, n ≤ 2 ^ k → ceilLog2 n ≤ k := by
  intro n
  induction n using Nat.strong_induction_on with
  | _ n ih =>
    intro k hk
    by_cases hn : n ≤ 1
    · rw [ceilLog2_of_le_one hn]; exact Nat.zero_le k
    · rw [ceilLog2_of_two_le (by omega)]
      match k with
      | 0 => simp at hk; omega
      | k + 1 =>
        have hp : 2 ^ (k + 1) = 2 ^ k * 2 := pow_succ 2 k
        have hrec : (n + 1) / 2 < n := by omega
        have := ih ((n + 1) / 2) hrec k (by omega)
        omega

theorem one_le_effectiveDepth (n : Nat) : 1 ≤ effectiveDepth n :=
  le_max_left 1 (ceilLog2 n)

theorem le_two_pow_effectiveDepth (n : Nat) : n ≤ 2 ^ effectiveDepth n :=
  le_trans (le_two_pow_ceilLog2 n)
    (Nat.pow_le_pow_right (by omega) (le_max_right 1 (ceilLog2 n)))

theorem effectiveDepth_le (hk : 1 ≤ k) (hn : n ≤ 2 ^ k) : effectiveDepth n ≤ k :=
  max_le hk (ceilLog2_le_of_le_pow n k hn)

/-! ### The per-level reduction and the heap layout of the dense region -/

theorem combineLevel_length (ph : PathHasher β) :
    ∀ l : List β, (combineLevel ph l).length = l.length / 2
  | [] => by simp [combineLevel]
  | [_] => by simp [combineLevel]
  | _ :: _ :: rest => by
    simp only [combineLevel, List.length_cons, combineLevel_length ph rest]
    omega

theorem combineLevel_getD (ph : PathHasher β) :
    ∀ (l : List β) (j : Nat), 2 * j + 1 < l.length → ∀ dd,
      (combineLevel ph l).getD j dd = ph.hash (l.getD (2 * j) dd) (l.getD (2 * j + 1) dd)
  | a :: b :: rest, 0, _, dd => rfl
  | a :: b :: rest, j + 1, h, dd => by
    have h2 : 2 * j + 1 < rest.length := by simp at h; omega
    have := combineLevel_getD ph rest j h2 dd
    simp only [combineLevel, List.getD_cons_succ]
    exact this
  | [], j, h, dd => by simp at h
  | [a], j, h, dd => by simp at h

theorem flatten_buildLevels_length (ph : PathHasher β) :
    ∀ (d : Nat) (lvl : List β), lvl.length = 2 ^ d →
      ((buildLevels ph d lvl).flatten).length = 2 ^ (d + 1) - 1 := by
  intro d
  induction d with
  | zero => intro lvl h; simp [buildLevels, h]
  | succ e ih =>
    intro lvl h
    have hcl : (combineLevel ph lvl).length = 2 ^ e := by
      rw [combineLevel_length ph lvl, h, pow_succ]
      omega
    have := ih (combineLevel ph lvl) hcl
    have hp1 : 2 ^ (e + 1) = 2 ^ e * 2 := pow_succ 2 e
    have hp2 : 2 ^ (e + 2) = 2 ^ (e + 1) * 2 := pow_succ 2 (e + 1)
    simp only [buildLevels, List.flatten_append, List.length_append, this]
    simp [h]
    omega

theorem drop_flatten_buildLevels (ph : PathHasher β) (d : Nat) (lvl : List β)
    (h : lvl.length = 2 ^ d) :
    ((buildLevels ph d lvl).flatten).drop (2 ^ d - 1) = lvl := by
  match d with
  | 0 => simp [buildLevels]
  | e + 1 =>
    have hcl : (combineLevel ph lvl).length = 2 ^ e := by
      rw [combineLevel_length ph lvl, h, pow_succ]
      omega
    have hlen := flatten_buildLevels_length ph e (combineLevel ph lvl) hcl
    simp only [buildLevels, List.flatten_append, List.flatten_cons, List.flatten_nil,
      List.append_nil]
    rw [show 2 ^ (e + 1) - 1 = ((buildLevels ph e (combineLevel ph lvl)).flatten).length by
      rw [hlen]]
    exact List.drop_left _ _

theorem headD_flatten_buildLevels (ph : PathHasher β) :
    ∀ (d : Nat) (lvl : List β), lvl.length = 2 ^ d → ∀ dd,
      ((buildLevels ph d lvl).flatten).headD dd = (combineIter ph d lvl).getD 0 dd := by
  intro d
  induction d with
  | zero =>
    intro lvl h dd
    match lvl, h with
    | [a], _ => rfl
  | succ e ih =>
    intro lvl h dd
    have hcl : (combineLevel ph lvl).length = 2 ^ e := by
      rw [combineLevel_length ph lvl, h, pow_succ]
      omega
    have hlen := flatten_buildLevels_length ph e (combineLevel ph lvl) hcl
    have hne : (buildLevels ph e (combineLevel ph lvl)).flatten ≠ [] := by
      intro hc
      rw [hc] at hlen
      simp at hlen
      have : (0:Nat) < 2 ^ (e + 1) := Nat.pos_pow_of_pos _ (by omega)
      omega
    simp only [buildLevels, List.flatten_append, List.flatten_cons, List.flatten_nil,
      List.append_nil]
    rw [show combineIter ph (e + 1) lvl = combineIter ph e (combineLevel ph lvl) from rfl]
    rw [← ih (combineLevel ph lvl) hcl dd]
    match hbl : (buildLevels ph e (combineLevel ph lvl)).flatten, hne with
    | x :: rest, _ => rfl

theorem paddedLeafLevel_length (ph : PathHasher β) (d : Nat) (hashed : List β)
    (h : hashed.length ≤ 2 ^ d) : (paddedLeafLevel ph d hashed).length = 2 ^ d := by
  simp [paddedLeafLevel]
  omega

/-! ### Folding a sibling list against the dense region and the padding levels -/

theorem pathSiblings_length (ph : PathHasher β) :
    ∀ (d : Nat) (lvl : List β) (i : Nat), (pathSiblings ph d lvl i).length = d
  | 0, _, _ => rfl
  | d + 1, lvl, i => by
    simp only [pathSiblings, List.length_cons,
      pathSiblings_length ph d (combineLevel ph lvl) (i / 2)]

theorem foldSiblings_append (ph : PathHasher β) :
    ∀ (A B : List β) (i : Nat) (h : β),
      foldSiblings ph i (A ++ B) h =
        foldSiblings ph (i / 2 ^ A.length) B (foldSiblings ph i A h)
  | [], B, i, h => by simp [foldSiblings]
  | s :: A, B, i, h => by
    simp only [List.cons_append, foldSiblings, List.length_cons, List.append_eq]
    rw [foldSiblings_append ph A B (i / 2), Nat.div_div_eq_div_mul, pow_succ, Nat.mul_comm]

theorem foldSiblings_replicate_empty (ph : PathHasher β) :
    ∀ (k : Nat) (h : β),
      foldSiblings ph 0 (List.replicate k ph.hash_empty) h = padIter ph k h
  | 0, h => rfl
  | k + 1, h => by
    simp only [List.replicate_succ, foldSiblings]
    exact foldSiblings_replicate_empty ph k (ph.hash h ph.hash_empty)

theorem fold_pathSiblings (ph : PathHasher β) :
    ∀ (d : Nat) (lvl : List β) (i : Nat), lvl.length = 2 ^ d → i < 2 ^ d →
      foldSiblings ph i (pathSiblings ph d lvl i) (lvl.getD i ph.hash_empty) =
        (combineIter ph d lvl).getD 0 ph.hash_empty := by
  intro d
  induction d with
  | zero =>
    intro lvl i hlen hi
    have : i = 0 := by omega
    subst this
    rfl
  | succ e ih =>
    intro lvl i hlen hi
    have hcl : (combineLevel ph lvl).length = 2 ^ e := by
      rw [combineLevel_length ph lvl, hlen, pow_succ]
      omega
    have hi2 : i / 2 < 2 ^ e := by
      have : 2 ^ (e + 1) = 2 ^ e * 2 := pow_succ 2 e
      omega
    simp only [pathSiblings, foldSiblings]
    rw [show combineIter ph (e + 1) lvl = combineIter ph e (combineLevel ph lvl) from rfl]
    rw [← ih (combineLevel ph lvl) (i / 2) hcl hi2]
    congr 1
    rw [combineLevel_getD ph lvl (i / 2) (by
      have : 2 ^ (e + 1) = 2 ^ e * 2 := pow_succ 2 e
      omega) ph.hash_empty]
    by_cases hpar : i % 2 = 0
    · rw [if_pos hpar, if_pos hpar, show 2 * (i / 2) = i by omega]
    · rw [if_neg hpar, if_neg hpar, show 2 * (i / 2) = i - 1 by omega,
        show i - 1 + 1 = i by omega]

/-! ### The padding chain and the root -/

theorem padIter_succ_outer (ph : PathHasher β) :
    ∀ (k : Nat) (x : β), padIter ph (k + 1) x = ph.hash (padIter ph k x) ph.hash_empty
  | 0, x => rfl
  | k + 1, x => by
    show padIter ph (k + 1) (ph.hash x ph.hash_empty) = _
    rw [padIter_succ_outer ph k (ph.hash x ph.hash_empty)]
    rfl

theorem buildPadding_length (ph : PathHasher β) :
    ∀ (k : Nat) (top : β), (buildPadding ph top k).length = k
  | 0, _ => rfl
  | k + 1, top => by
    simp only [buildPadding, List.length_cons,
      buildPadding_length ph k (ph.hash top ph.hash_empty)]

theorem buildPadding_snd (ph : PathHasher β) :
    ∀ (k : Nat) (top : β), ∀ pr ∈ buildPadding ph top k, pr.2 = ph.hash_empty
  | 0, _ => by simp [buildPadding]
  | k + 1, top => by
    intro pr hpr
    simp only [buildPadding, List.mem_cons] at hpr
    rcases hpr with h | h
    · rw [h]
    · exact buildPadding_snd ph k (ph.hash top ph.hash_empty) pr h

theorem buildPadding_getLast (ph : PathHasher β) :
    ∀ (k : Nat) (top : β),
      (buildPadding ph top (k + 1)).getLast? =
        some (padIter ph (k + 1) top, ph.hash_empty)
  | 0, top => rfl
  | k + 1, top => by
    have htail := buildPadding_getLast ph k (ph.hash top ph.hash_empty)
    show ((ph.hash top ph.hash_empty, ph.hash_empty) ::
      buildPadding ph (ph.hash top ph.hash_empty) (k + 1)).getLast? = _
    rw [show buildPadding ph (ph.hash top ph.hash_empty) (k + 1) =
      (ph.hash (ph.hash top ph.hash_empty) ph.hash_empty, ph.hash_empty) ::
        buildPadding ph (ph.hash (ph.hash top ph.hash_empty) ph.hash_empty) k from rfl]
    rw [List.getLast?_cons_cons]
    rw [show (ph.hash (ph.hash top ph.hash_empty) ph.hash_empty, ph.hash_empty) ::
        buildPadding ph (ph.hash (ph.hash top ph.hash_empty) ph.hash_empty) k =
      buildPadding ph (ph.hash top ph.hash_empty) (k + 1) from rfl]
    rw [htail]
    rfl

/-! ### Facts about well-formed (reachable) trees -/

theorem getD_map_of_lt (f : α → β) (l : List α) (i : Nat) (h : i < l.length) (dd : β)
    (a0 : α) : (l.map f).getD i dd = f (l.getD i a0) := by
  rw [List.getD_eq_getElem (l.map f) dd (by simpa using h), List.getD_eq_getElem l a0 h]
  simp

theorem wf_effectiveDepth_le (ph : PathHasher β) (t : MerkleTree β) (hwf : WF ph t) :
    effectiveDepth t.number_of_leaves ≤ t.depth :=
  effectiveDepth_le hwf.1 hwf.2.1

theorem wf_leafLevel (ph : PathHasher β) (t : MerkleTree β) (hwf : WF ph t) :
    ∃ hashed : List β, hashed.length = t.number_of_leaves ∧
      t.leafLevel = paddedLeafLevel ph (effectiveDepth t.number_of_leaves) hashed ∧
      t.leafLevel.length = 2 ^ effectiveDepth t.number_of_leaves := by
  obtain ⟨_, _, hashed, hlen, htree, _⟩ := hwf
  have hcap2 : hashed.length ≤ 2 ^ effectiveDepth t.number_of_leaves := by
    rw [hlen]; exact le_two_pow_effectiveDepth _
  have hl : t.leafLevel = paddedLeafLevel ph (effectiveDepth t.number_of_leaves) hashed := by
    show t.tree.drop _ = _
    rw [htree]
    exact drop_flatten_buildLevels ph _ _ (paddedLeafLevel_length ph _ hashed hcap2)
  exact ⟨hashed, hlen, hl, by rw [hl]; exact paddedLeafLevel_length ph _ hashed hcap2⟩

theorem wf_headD (ph : PathHasher β) (t : MerkleTree β) (hwf : WF ph t) :
    t.tree.headD ph.hash_empty =
      (combineIter ph (effectiveDepth t.number_of_leaves) t.leafLevel).getD 0
        ph.hash_empty := by
  obtain ⟨_, _, hashed, hlen, htree, _⟩ := hwf
  have hcap2 : hashed.length ≤ 2 ^ effectiveDepth t.number_of_leaves := by
    rw [hlen]; exact le_two_pow_effectiveDepth _
  have hl : t.leafLevel = paddedLeafLevel ph (effectiveDepth t.number_of_leaves) hashed := by
    show t.tree.drop _ = _
    rw [htree]
    exact drop_flatten_buildLevels ph _ _ (paddedLeafLevel_length ph _ hashed hcap2)
  rw [hl, htree]
  exact headD_flatten_buildLevels ph _ _ (paddedLeafLevel_length ph _ hashed hcap2)
    ph.hash_empty

theorem root_of_wf (ph : PathHasher β) (t : MerkleTree β) (hwf : WF ph t) :
    t.root ph =
      padIter ph (t.depth - effectiveDepth t.number_of_leaves)
        (t.tree.headD ph.hash_empty) := by
  obtain ⟨hdep, hcap, hashed, hlen, htree, hpad⟩ := hwf
  have hle : effectiveDepth t.number_of_leaves ≤ t.depth :=
    effectiveDepth_le hdep hcap
  show (if t.depth = effectiveDepth t.number_of_leaves then _ else _) = _
  by_cases heq : t.depth = effectiveDepth t.number_of_leaves
  · rw [if_pos heq, heq, Nat.sub_self]
    rfl
  · rw [if_neg heq, hpad]
    have hlt : effectiveDepth t.number_of_leaves < t.depth := by omega
    obtain hk | ⟨m, hk⟩ : t.depth - effectiveDepth t.number_of_leaves - 1 = 0 ∨
        ∃ m, t.depth - effectiveDepth t.number_of_leaves - 1 = m + 1 := by
      rcases Nat.eq_zero_or_pos (t.depth - effectiveDepth t.number_of_leaves - 1) with h | h
      · exact Or.inl h
      · exact Or.inr ⟨_, (Nat.succ_pred_eq_of_pos h).symm⟩
    · rw [hk]
      show ph.hash (t.tree.headD ph.hash_empty) ph.hash_empty = _
      rw [show t.depth - effectiveDepth t.number_of_leaves = 1 by omega]
      rfl
    · rw [hk, buildPadding_getLast ph m (t.tree.headD ph.hash_empty)]
      show ph.hash (padIter ph (m + 1) (t.tree.headD ph.hash_empty)) ph.hash_empty = _
      rw [show t.depth - effectiveDepth t.number_of_leaves = m + 2 by omega]
      rw [padIter_succ_outer ph (m + 1) (t.tree.headD ph.hash_empty)]

theorem prove_verify_of_wf [DecidableEq β] (lh : LeafHasher α β) (ph : PathHasher β)
    (t : MerkleTree β) (hwf : WF ph t) (i : Nat) (hi : i < t.number_of_leaves) (leaf : α)
    (hleaf : t.leafLevel.getD i ph.hash_empty = lh.hash leaf) :
    ∃ p, t.prove lh ph i leaf = .ok p ∧ p.leaf_index = i ∧
      p.siblings.length = t.depth ∧
      p.verify lh ph (t.root ph) leaf = true := by
  obtain ⟨_, _, hlvl, hlvllen⟩ := wf_leafLevel ph t hwf
  have hdle : effectiveDepth t.number_of_leaves ≤ t.depth := wf_effectiveDepth_le ph t hwf
  have hi2 : i < 2 ^ effectiveDepth t.number_of_leaves :=
    lt_of_lt_of_le hi (le_two_pow_effectiveDepth _)
  have hprove : t.prove lh ph i leaf =
      .ok ⟨i, pathSiblings ph (effectiveDepth t.number_of_leaves) t.leafLevel i ++
        List.replicate (t.depth - effectiveDepth t.number_of_leaves) ph.hash_empty⟩ := by
    have hleaf2 : (t.tree.drop (2 ^ effectiveDepth t.number_of_leaves - 1)).getD i
        ph.hash_empty = lh.hash leaf := hleaf
    show (if i < t.number_of_leaves then
      if (t.tree.drop (2 ^ effectiveDepth t.number_of_leaves - 1)).getD i ph.hash_empty =
          lh.hash leaf then
        (Except.ok ⟨i, pathSiblings ph (effectiveDepth t.number_of_leaves)
          (t.tree.drop (2 ^ effectiveDepth t.number_of_leaves - 1)) i ++
          List.replicate (t.depth - effectiveDepth t.number_of_leaves) ph.hash_empty⟩ :
            Except TreeError (MerkleProof β))
      else Except.error TreeError.leafMismatch
      else Except.error TreeError.leafMismatch) = _
    rw [if_pos hi, if_pos hleaf2]
    rfl
  refine ⟨_, hprove, rfl, ?_, ?_⟩
  · simp only [List.length_append, List.length_replicate,
      pathSiblings_length ph _ t.leafLevel i]
    omega
  · show decide (foldSiblings ph i (pathSiblings ph (effectiveDepth t.number_of_leaves)
      t.leafLevel i ++ List.replicate (t.depth - effectiveDepth t.number_of_leaves)
        ph.hash_empty) (lh.hash leaf) = t.root ph) = true
    rw [decide_eq_true_eq, ← hleaf, foldSiblings_append ph _ _ i,
      pathSiblings_length ph _ t.leafLevel i,
      fold_pathSiblings ph _ t.leafLevel i hlvllen hi2,
      Nat.div_eq_of_lt hi2,
      foldSiblings_replicate_empty ph _ _,
      ← wf_headD ph t hwf, root_of_wf ph t hwf]

theorem wf_new (lh : LeafHasher α β) (ph : PathHasher β) (depth : Nat) (leaves : List α)
    (t : MerkleTree β) (h : MerkleTree.new lh ph depth leaves = .ok t) :
    WF ph t ∧ t.depth = depth ∧ t.number_of_leaves = leaves.length ∧
      t.tree = buildTree ph (effectiveDepth leaves.length) (leaves.map lh.hash) ∧
      ∀ i, i < leaves.length → ∀ a0,
        t.leafLevel.getD i ph.hash_empty = lh.hash (leaves.getD i a0) := by
  have hd : ¬ depth = 0 := by
    intro hc
    rw [MerkleTree.new, if_pos hc] at h
    cases h
  have hcap : ¬ 2 ^ depth < leaves.length := by
    intro hc
    rw [MerkleTree.new, if_neg hd, if_pos hc] at h
    cases h
  rw [MerkleTree.new, if_neg hd, if_neg hcap] at h
  obtain rfl : (⟨depth, leaves.length, buildTree ph (effectiveDepth leaves.length)
      (leaves.map lh.hash), buildPadding ph ((buildTree ph (effectiveDepth leaves.length)
        (leaves.map lh.hash)).headD ph.hash_empty)
      (depth - effectiveDepth leaves.length - 1)⟩ : MerkleTree β) = t := by
    cases h
    rfl
  have hcap2 : (leaves.map lh.hash).length ≤ 2 ^ effectiveDepth leaves.length := by
    rw [List.length_map]
    exact le_two_pow_effectiveDepth _
  have hlvl : (buildTree ph (effectiveDepth leaves.length) (leaves.map lh.hash)).drop
      (2 ^ effectiveDepth leaves.length - 1) =
        paddedLeafLevel ph (effectiveDepth leaves.length) (leaves.map lh.hash) :=
    drop_flatten_buildLevels ph _ _
      (paddedLeafLevel_length ph _ (leaves.map lh.hash) hcap2)
  refine ⟨⟨by show 1 ≤ depth; omega, by show leaves.length ≤ 2 ^ depth; omega,
    leaves.map lh.hash, by simp, rfl, rfl⟩, rfl, rfl, rfl, ?_⟩
  intro i hilt a0
  show ((buildTree ph (effectiveDepth leaves.length) (leaves.map lh.hash)).drop
    (2 ^ effectiveDepth leaves.length - 1)).getD i ph.hash_empty = _
  rw [hlvl]
  show ((leaves.map lh.hash) ++ _).getD i ph.hash_empty = _
  rw [List.getD_append _ _ _ _ (by simpa using hilt)]
  exact getD_map_of_lt lh.hash leaves i hilt ph.hash_empty a0

theorem append_eq (lh : LeafHasher α β) (ph : PathHasher β) (t : MerkleTree β)
    (more : List α) (hg : ¬ 2 ^ t.depth < t.number_of_leaves + more.length) :
    t.append lh ph more = .ok ⟨t.depth, t.number_of_leaves + more.length,
      buildTree ph (effectiveDepth (t.number_of_leaves + more.length))
        ((t.tree.drop (2 ^ effectiveDepth t.number_of_leaves - 1)).take t.number_of_leaves
          ++ more.map lh.hash),
      buildPadding ph ((buildTree ph (effectiveDepth (t.number_of_leaves + more.length))
        ((t.tree.drop (2 ^ effectiveDepth t.number_of_leaves - 1)).take t.number_of_leaves
          ++ more.map lh.hash)).headD ph.hash_empty)
        (t.depth - effectiveDepth (t.number_of_leaves + more.length) - 1)⟩ := by
  rw [MerkleTree.append, if_neg hg]

theorem wf_take_leafLevel (ph : PathHasher β) (t : MerkleTree β) (hashed : List β)
    (hlen : hashed.length = t.number_of_leaves)
    (htree : t.tree = buildTree ph (effectiveDepth t.number_of_leaves) hashed) :
    (t.tree.drop (2 ^ effectiveDepth t.number_of_leaves - 1)).take t.number_of_leaves =
      hashed := by
  have hcap2 : hashed.length ≤ 2 ^ effectiveDepth t.number_of_leaves := by
    rw [hlen]; exact le_two_pow_effectiveDepth _
  rw [htree]
  rw [show (buildTree ph (effectiveDepth t.number_of_leaves) hashed).drop
      (2 ^ effectiveDepth t.number_of_leaves - 1) =
      paddedLeafLevel ph (effectiveDepth t.number_of_leaves) hashed from
    drop_flatten_buildLevels ph _ _ (paddedLeafLevel_length ph _ hashed hcap2)]
  show (hashed ++ _).take t.number_of_leaves = hashed
  rw [← hlen, List.take_left]

theorem wf_append (lh : LeafHasher α β) (ph : PathHasher β) (t : MerkleTree β)
    (more : List α) (t2 : MerkleTree β) (hwf : WF ph t)
    (h : t.append lh ph more = .ok t2) :
    WF ph t2 ∧ t2.depth = t.depth ∧
      t2.number_of_leaves = t.number_of_leaves + more.length ∧
      (∀ i, i < t.number_of_leaves →
        t2.leafLevel.getD i ph.hash_empty = t.leafLevel.getD i ph.hash_empty) ∧
      (∀ j, j < more.length → ∀ a0,
        t2.leafLevel.getD (t.number_of_leaves + j) ph.hash_empty =
          lh.hash (more.getD j a0)) := by
  obtain ⟨hdep, hcap, hashed, hlen, htree, hpad⟩ := hwf
  have hg : ¬ 2 ^ t.depth < t.number_of_leaves + more.length := by
    intro hc
    rw [MerkleTree.append, if_pos hc] at h
    cases h
  rw [append_eq lh ph t more hg, wf_take_leafLevel ph t hashed hlen htree] at h
  obtain rfl : (⟨t.depth, t.number_of_leaves + more.length,
      buildTree ph (effectiveDepth (t.number_of_leaves + more.length))
        (hashed ++ more.map lh.hash),
      buildPadding ph ((buildTree ph (effectiveDepth (t.number_of_leaves + more.length))
        (hashed ++ more.map lh.hash)).headD ph.hash_empty)
        (t.depth - effectiveDepth (t.number_of_leaves + more.length) - 1)⟩ :
          MerkleTree β) = t2 := by
    cases h
    rfl
  have hlen2 : (hashed ++ more.map lh.hash).length =
      t.number_of_leaves + more.length := by
    simp
    omega
  have hcap2 : (hashed ++ more.map lh.hash).length ≤
      2 ^ effectiveDepth (t.number_of_leaves + more.length) := by
    rw [hlen2]
    exact le_two_pow_effectiveDepth _
  have hlvl2 : (buildTree ph (effectiveDepth (t.number_of_leaves + more.length))
      (hashed ++ more.map lh.hash)).drop
        (2 ^ effectiveDepth (t.number_of_leaves + more.length) - 1) =
      paddedLeafLevel ph (effectiveDepth (t.number_of_leaves + more.length))
        (hashed ++ more.map lh.hash) :=
    drop_flatten_buildLevels ph _ _ (paddedLeafLevel_length ph _ _ hcap2)
  have hlvlold : t.leafLevel =
      paddedLeafLevel ph (effectiveDepth t.number_of_leaves) hashed := by
    show t.tree.drop _ = _
    rw [htree]
    exact drop_flatten_buildLevels ph _ _ (paddedLeafLevel_length ph _ hashed
      (by rw [hlen]; exact le_two_pow_effectiveDepth _))
  refine ⟨⟨by show 1 ≤ t.depth; omega,
    by show t.number_of_leaves + more.length ≤ 2 ^ t.depth; omega,
    hashed ++ more.map lh.hash, by simpa using hlen2, rfl, rfl⟩, rfl, rfl, ?_, ?_⟩
  · intro i hilt
    show ((buildTree ph (effectiveDepth (t.number_of_leaves + more.length))
      (hashed ++ more.map lh.hash)).drop
        (2 ^ effectiveDepth (t.number_of_leaves + more.length) - 1)).getD i
          ph.hash_empty = _
    rw [hlvl2, hlvlold]
    show ((hashed ++ more.map lh.hash) ++ _).getD i ph.hash_empty =
      (hashed ++ _).getD i ph.hash_empty
    rw [List.getD_append _ _ _ _ (by rw [hlen2]; omega),
      List.getD_append _ _ _ _ (by omega),
      List.getD_append _ _ _ _ (by omega)]
  · intro j hjlt a0
    show ((buildTree ph (effectiveDepth (t.number_of_leaves + more.length))
      (hashed ++ more.map lh.hash)).drop
        (2 ^ effectiveDepth (t.number_of_leaves + more.length) - 1)).getD
          (t.number_of_leaves + j) ph.hash_empty = _
    rw [hlvl2]
    show ((hashed ++ more.map lh.hash) ++ _).getD (t.number_of_leaves + j)
      ph.hash_empty = _
    rw [List.getD_append _ _ _ _ (by rw [hlen2]; omega),
      List.getD_append_right _ _ _ _ (by omega),
      show t.number_of_leaves + j - hashed.length = j by omega]
    exact getD_map_of_lt lh.hash more j hjlt ph.hash_empty a0

theorem append_nil (lh : LeafHasher α β) (ph : PathHasher β) (t : MerkleTree β)
    (hwf : WF ph t) : t.append lh ph ([] : List α) = .ok t := by
  obtain ⟨dep, n, tr, pad⟩ := t
  obtain ⟨hdep, hcap, hashed, hlen, htree, hpad⟩ := hwf
  simp only at hdep hcap hlen htree hpad
  have hg : ¬ 2 ^ dep <
      (MerkleTree.mk dep n tr pad).number_of_leaves + ([] : List α).length := by
    simp only [List.length_nil]
    show ¬ 2 ^ dep < n + 0
    omega
  rw [append_eq lh ph ⟨dep, n, tr, pad⟩ ([] : List α) hg,
    wf_take_leafLevel ph ⟨dep, n, tr, pad⟩ hashed hlen htree]
  have htr : buildTree ph (effectiveDepth n) (hashed ++ List.map lh.hash []) = tr := by
    show buildTree ph (effectiveDepth n) (hashed ++ []) = tr
    rw [List.append_nil]
    exact htree.symm
  simp only [Except.ok.injEq, MerkleTree.mk.injEq, List.length_nil, Nat.add_zero,
    true_and]
  refine ⟨htr, ?_⟩
  rw [htr]
  exact hpad.symm

theorem prove_ok_inv [DecidableEq β] (lh : LeafHasher α β) (ph : PathHasher β)
    (t : MerkleTree β) (i : Nat) (leaf : α) (p : MerkleProof β)
    (hp : t.prove lh ph i leaf = .ok p) :
    i < t.number_of_leaves ∧
      t.leafLevel.getD i ph.hash_empty = lh.hash leaf ∧
      p = ⟨i, pathSiblings ph (effectiveDepth t.number_of_leaves) t.leafLevel i ++
        List.replicate (t.depth - effectiveDepth t.number_of_leaves) ph.hash_empty⟩ := by
  simp only [MerkleTree.prove] at hp
  split at hp
  · split at hp
    · rename_i hi hl
      cases hp
      exact ⟨hi, hl, rfl⟩
    · cases hp
  · cases hp

theorem wf_padding_snd (ph : PathHasher β) (t : MerkleTree β) (hwf : WF ph t) :
    ∀ pr ∈ t.padding_tree, pr.2 = ph.hash_empty := by
  obtain ⟨_, _, _, _, _, hpad⟩ := hwf
  intro pr hpr
  rw [hpad] at hpr
  exact buildPadding_snd ph _ _ pr hpr

/-! ### The claims -/

/-- C1: for every DEPTH ge 1, every pair of hashers, every leaf sequence of
length at most 2 ^ DEPTH used to build a tree T, and every index i below
T.number_of_leaves, prove succeeds and the proof verifies against T.root and
the committed leaf; the same holds for leaves committed by a later successful
append, checked against the appended tree's root. -/
theorem claim_c1_membership_soundness [DecidableEq β] (lh : LeafHasher α β)
    (ph : PathHasher β) (depth : Nat) (hd : 1 ≤ depth) (leaves : List α)
    (hcap : leaves.length ≤ 2 ^ depth) (t : MerkleTree β)
    (hnew : MerkleTree.new lh ph depth leaves = .ok t) (a0 : α) :
    (∀ i, i < t.number_of_leaves →
      ∃ p, t.prove lh ph i (leaves.getD i a0) = .ok p ∧
        p.verify lh ph (t.root ph) (leaves.getD i a0) = true) ∧
    (∀ more t2, t.append lh ph more = .ok t2 →
      ∀ j, j < more.length →
        ∃ p, t2.prove lh ph (t.number_of_leaves + j) (more.getD j a0) = .ok p ∧
          p.verify lh ph (t2.root ph) (more.getD j a0) = true) := by
  obtain ⟨hwf, hdep, hnum, htr, hlvlget⟩ := wf_new lh ph depth leaves t hnew
  constructor
  · intro i hi
    have hi2 : i < leaves.length := by omega
    obtain ⟨p, hp, _, _, hv⟩ := prove_verify_of_wf lh ph t hwf i hi (leaves.getD i a0)
      (hlvlget i hi2 a0)
    exact ⟨p, hp, hv⟩
  · intro more t2 happ j hj
    obtain ⟨hwf2, hdep2, hnum2, hold, hnew2⟩ := wf_append lh ph t more t2 hwf happ
    have hij : t.number_of_leaves + j < t2.number_of_leaves := by omega
    obtain ⟨p, hp, _, _, hv⟩ := prove_verify_of_wf lh ph t2 hwf2
      (t.number_of_leaves + j) hij (more.getD j a0) (hnew2 j hj a0)
    exact ⟨p, hp, hv⟩

/-- C2: every proof produced by prove on a reachable tree is rejected by verify
against any claimed root different from the tree's true root (including the
zero digest, the one digest, and any other digest). -/
theorem claim_c2_root_rejection [DecidableEq β] (lh : LeafHasher α β)
    (ph : PathHasher β) (t : MerkleTree β) (hwf : WF ph t) (i : Nat) (leaf : α)
    (p : MerkleProof β) (hp : t.prove lh ph i leaf = .ok p) (r2 : β)
    (hr : r2 ≠ t.root ph) : p.verify lh ph r2 leaf = false := by
  obtain ⟨hi, hl, rfl⟩ := prove_ok_inv lh ph t i leaf p hp
  obtain ⟨p2, hp2, _, _, hv⟩ := prove_verify_of_wf lh ph t hwf i hi leaf hl
  obtain rfl := Except.ok.inj (hp.symm.trans hp2)
  simp only [MerkleProof.verify, decide_eq_true_eq] at hv
  simp only [MerkleProof.verify]
  apply decide_eq_false
  intro hc
  rw [hv] at hc
  exact hr hc.symm

/-- C4: append fails with CapacityExceeded whenever the combined leaf count
exceeds 2 ^ DEPTH, and a successful append returns a new well-formed tree with
the combined leaf count; append is a pure function of the old tree, which is
never mutated. -/
theorem claim_c4_append_capacity (lh : LeafHasher α β) (ph : PathHasher β)
    (t : MerkleTree β) (more : List α) (hwf : WF ph t) :
    (2 ^ t.depth < t.number_of_leaves + more.length →
      t.append lh ph more = .error .capacityExceeded) ∧
    (∀ t2, t.append lh ph more = .ok t2 →
      WF ph t2 ∧ t2.number_of_leaves = t.number_of_leaves + more.length ∧
        t2.depth = t.depth) := by
  constructor
  · intro hc
    rw [MerkleTree.append, if_pos hc]
  · intro t2 h
    obtain ⟨hwf2, hdep2, hnum2, _, _⟩ := wf_append lh ph t more t2 hwf h
    exact ⟨hwf2, hnum2, hdep2⟩

/-- C8: appending the empty batch succeeds and preserves the root, and after
any successful append every previously committed leaf still proves and
verifies against the new tree's root. -/
theorem claim_c8_append_monotonicity [DecidableEq β] (lh : LeafHasher α β)
    (ph : PathHasher β) (t : MerkleTree β) (hwf : WF ph t) :
    (∃ t2, t.append lh ph ([] : List α) = .ok t2 ∧ t2.root ph = t.root ph) ∧
    (∀ more t2, t.append lh ph more = .ok t2 →
      ∀ i, i < t.number_of_leaves → ∀ leaf p0, t.prove lh ph i leaf = .ok p0 →
        ∃ p, t2.prove lh ph i leaf = .ok p ∧
          p.verify lh ph (t2.root ph) leaf = true) := by
  constructor
  · exact ⟨t, append_nil lh ph t hwf, rfl⟩
  · intro more t2 happ i hi leaf p0 hp0
    obtain ⟨hiold, hleafold, _⟩ := prove_ok_inv lh ph t i leaf p0 hp0
    obtain ⟨hwf2, _, hnum2, hold, _⟩ := wf_append lh ph t more t2 hwf happ
    have hi2 : i < t2.number_of_leaves := by omega
    have hleaf2 : t2.leafLevel.getD i ph.hash_empty = lh.hash leaf := by
      rw [hold i hi]
      exact hleafold
    obtain ⟨p, hp, _, _, hv⟩ := prove_verify_of_wf lh ph t2 hwf2 i hi2 leaf hleaf2
    exact ⟨p, hp, hv⟩

/-- C9: every successful prove on a reachable tree, however sparse, returns a
proof with exactly DEPTH siblings. -/
theorem claim_c9_proof_length [DecidableEq β] (lh : LeafHasher α β)
    (ph : PathHasher β) (t : MerkleTree β) (hwf : WF ph t) (i : Nat) (leaf : α)
    (p : MerkleProof β) (hp : t.prove lh ph i leaf = .ok p) :
    p.siblings.length = t.depth := by
  obtain ⟨hi, hl, rfl⟩ := prove_ok_inv lh ph t i leaf p hp
  simp only [List.length_append, List.length_replicate, pathSiblings_length]
  have := wf_effectiveDepth_le ph t hwf
  omega

/-- C10: after construction and after every successful append, every entry of
the padding chain stores hash_empty as its second tuple component. -/
theorem claim_c10_padding_snd (lh : LeafHasher α β) (ph : PathHasher β)
    (depth : Nat) (leaves : List α) (t : MerkleTree β)
    (hnew : MerkleTree.new lh ph depth leaves = .ok t) (t0 : MerkleTree β)
    (more : List α) (t2 : MerkleTree β) (hwf0 : WF ph t0)
    (happ : t0.append lh ph more = .ok t2) :
    (∀ pr ∈ t.padding_tree, pr.2 = ph.hash_empty) ∧
    (∀ pr ∈ t2.padding_tree, pr.2 = ph.hash_empty) := by
  constructor
  · exact wf_padding_snd ph t (wf_new lh ph depth leaves t hnew).1
  · exact wf_padding_snd ph t2 (wf_append lh ph t0 more t2 hwf0 happ).1

/-- C3 counterexample: with DEPTH equal to 0 and two leaves, the capacity bound
2 ^ DEPTH is exceeded, yet construction fails with InvalidDepth, not with
CapacityExceeded (the depth check runs first), so the claim's unconditional
CapacityExceeded conjunct is false as stated. -/
theorem claim_c3_counterexample :
    2 ^ (0 : Nat) < ([5, 6] : List Nat).length ∧
      MerkleTree.new natLeafHasher natPathHasher 0 [5, 6] ≠
        .error .capacityExceeded := by
  constructor
  · decide
  · intro hc
    have h2 : (Except.error TreeError.invalidDepth : Except TreeError (MerkleTree Nat)) =
        .error .capacityExceeded := hc
    injection h2 with h3
    exact TreeError.noConfusion h3

/-- C3 (amended): construction fails with InvalidDepth whenever DEPTH equals 0;
for DEPTH ge 1 it fails with CapacityExceeded whenever the leaf count exceeds
2 ^ DEPTH; and for DEPTH ge 1 with the leaf count at most 2 ^ DEPTH it
succeeds. -/
theorem claim_c3_construction_guards (lh : LeafHasher α β) (ph : PathHasher β)
    (depth : Nat) (leaves : List α) :
    (depth = 0 → MerkleTree.new lh ph depth leaves = .error .invalidDepth) ∧
    (1 ≤ depth → 2 ^ depth < leaves.length →
      MerkleTree.new lh ph depth leaves = .error .capacityExceeded) ∧
    (1 ≤ depth → leaves.length ≤ 2 ^ depth →
      ∃ t, MerkleTree.new lh ph depth leaves = .ok t) := by
  refine ⟨?_, ?_, ?_⟩
  · intro h
    rw [MerkleTree.new, if_pos h]
  · intro h1 h2
    rw [MerkleTree.new, if_neg (by omega), if_pos h2]
  · intro h1 h2
    refine ⟨⟨depth, leaves.length,
      buildTree ph (effectiveDepth leaves.length) (leaves.map lh.hash),
      buildPadding ph ((buildTree ph (effectiveDepth leaves.length)
        (leaves.map lh.hash)).headD ph.hash_empty)
        (depth - effectiveDepth leaves.length - 1)⟩, ?_⟩
    rw [MerkleTree.new, if_neg (by omega), if_neg (by omega)]

/-- C5: a depth-2 tree over exactly 4 leaves has a dense array of length 7 in
heap layout: leaf hashes at indices 3 to 6, their pairwise combinations at
indices 1 and 2, and the root, stored at index 0, equal to the combination of
those two combinations. -/
theorem claim_c5_depth2_layout (lh : LeafHasher α β) (ph : PathHasher β)
    (l0 l1 l2 l3 : α) (t : MerkleTree β)
    (h : MerkleTree.new lh ph 2 [l0, l1, l2, l3] = .ok t) :
    t.tree.length = 7 ∧
    t.tree = [ph.hash (ph.hash (lh.hash l0) (lh.hash l1))
        (ph.hash (lh.hash l2) (lh.hash l3)),
      ph.hash (lh.hash l0) (lh.hash l1), ph.hash (lh.hash l2) (lh.hash l3),
      lh.hash l0, lh.hash l1, lh.hash l2, lh.hash l3] ∧
    t.root ph = ph.hash (ph.hash (lh.hash l0) (lh.hash l1))
      (ph.hash (lh.hash l2) (lh.hash l3)) ∧
    t.tree.getD 0 ph.hash_empty = t.root ph := by
  have hlit : MerkleTree.new lh ph 2 [l0, l1, l2, l3] =
      Except.ok (⟨2, 4, [ph.hash (ph.hash (lh.hash l0) (lh.hash l1))
        (ph.hash (lh.hash l2) (lh.hash l3)),
        ph.hash (lh.hash l0) (lh.hash l1), ph.hash (lh.hash l2) (lh.hash l3),
        lh.hash l0, lh.hash l1, lh.hash l2, lh.hash l3], []⟩ : MerkleTree β) := by
    unfold MerkleTree.new
    norm_num [effectiveDepth, ceilLog2, clog2Aux]
    all_goals and_intros <;> rfl
  obtain rfl := Except.ok.inj (hlit.symm.trans h)
  refine ⟨rfl, rfl, ?_, ?_⟩
  · unfold MerkleTree.root
    norm_num [effectiveDepth, ceilLog2, clog2Aux]
  · unfold MerkleTree.root
    norm_num [effectiveDepth, ceilLog2, clog2Aux]

/-- C6: a depth-3 tree over 4 leaves has a dense array of length 7 and an empty
padding chain; after appending one leaf the dense array has length 15 (the
effective depth grows from 2 to 3), the padding chain is still empty, the leaf
count is 5, the four old leaf hashes occupy the left half of the new leaf
level, and the vacant leaf slots hold hash_empty. -/
theorem claim_c6_depth3_append_growth (lh : LeafHasher α β) (ph : PathHasher β)
    (l0 l1 l2 l3 l4 : α) (t t2 : MerkleTree β)
    (h : MerkleTree.new lh ph 3 [l0, l1, l2, l3] = .ok t)
    (h2 : t.append lh ph [l4] = .ok t2) :
    t.tree.length = 7 ∧ t.padding_tree.length = 0 ∧
    effectiveDepth t.number_of_leaves = 2 ∧
    t2.tree.length = 15 ∧ t2.padding_tree.length = 0 ∧
    t2.number_of_leaves = 5 ∧
    effectiveDepth t2.number_of_leaves = 3 ∧
    t2.tree.drop 7 = [lh.hash l0, lh.hash l1, lh.hash l2, lh.hash l3, lh.hash l4,
      ph.hash_empty, ph.hash_empty, ph.hash_empty] := by
  have hlit : MerkleTree.new lh ph 3 [l0, l1, l2, l3] =
      Except.ok (⟨3, 4, [ph.hash (ph.hash (lh.hash l0) (lh.hash l1))
        (ph.hash (lh.hash l2) (lh.hash l3)),
        ph.hash (lh.hash l0) (lh.hash l1), ph.hash (lh.hash l2) (lh.hash l3),
        lh.hash l0, lh.hash l1, lh.hash l2, lh.hash l3], []⟩ : MerkleTree β) := by
    unfold MerkleTree.new
    norm_num [effectiveDepth, ceilLog2, clog2Aux]
    all_goals and_intros <;> rfl
  obtain rfl := Except.ok.inj (hlit.symm.trans h)
  have hlit2 : MerkleTree.append lh ph (⟨3, 4,
      [ph.hash (ph.hash (lh.hash l0) (lh.hash l1))
        (ph.hash (lh.hash l2) (lh.hash l3)),
        ph.hash (lh.hash l0) (lh.hash l1), ph.hash (lh.hash l2) (lh.hash l3),
        lh.hash l0, lh.hash l1, lh.hash l2, lh.hash l3], []⟩ : MerkleTree β) [l4] =
      Except.ok (⟨3, 5,
        [ph.hash (ph.hash (ph.hash (lh.hash l0) (lh.hash l1))
            (ph.hash (lh.hash l2) (lh.hash l3)))
          (ph.hash (ph.hash (lh.hash l4) ph.hash_empty)
            (ph.hash ph.hash_empty ph.hash_empty)),
        ph.hash (ph.hash (lh.hash l0) (lh.hash l1))
          (ph.hash (lh.hash l2) (lh.hash l3)),
        ph.hash (ph.hash (lh.hash l4) ph.hash_empty)
          (ph.hash ph.hash_empty ph.hash_empty),
        ph.hash (lh.hash l0) (lh.hash l1), ph.hash (lh.hash l2) (lh.hash l3),
        ph.hash (lh.hash l4) ph.hash_empty, ph.hash ph.hash_empty ph.hash_empty,
        lh.hash l0, lh.hash l1, lh.hash l2, lh.hash l3, lh.hash l4,
        ph.hash_empty, ph.hash_empty, ph.hash_empty], []⟩ : MerkleTree β) := by
    unfold MerkleTree.append
    norm_num [effectiveDepth, ceilLog2, clog2Aux]
    all_goals and_intros <;> rfl
  obtain rfl := Except.ok.inj (hlit2.symm.trans h2)
  refine ⟨rfl, rfl, ?_, rfl, rfl, rfl, ?_, rfl⟩
  · norm_num [effectiveDepth, ceilLog2, clog2Aux]
  · norm_num [effectiveDepth, ceilLog2, clog2Aux]

/-- C7: a depth-4 tree over 4 leaves has a dense array of length 7 (effective
depth 2) and exactly one padding-chain entry, whose first component combines
the dense region's top entry with hash_empty and whose second component is
hash_empty; the root equals the combination of the two components of that
entry. -/
theorem claim_c7_depth4_padding (lh : LeafHasher α β) (ph : PathHasher β)
    (l0 l1 l2 l3 : α) (t : MerkleTree β)
    (h : MerkleTree.new lh ph 4 [l0, l1, l2, l3] = .ok t) :
    t.tree.length = 7 ∧ effectiveDepth t.number_of_leaves = 2 ∧
    t.padding_tree.length = 1 ∧
    t.padding_tree.getD 0 (ph.hash_empty, ph.hash_empty) =
      (ph.hash (t.tree.headD ph.hash_empty) ph.hash_empty, ph.hash_empty) ∧
    t.root ph = ph.hash (t.padding_tree.getD 0 (ph.hash_empty, ph.hash_empty)).1
      (t.padding_tree.getD 0 (ph.hash_empty, ph.hash_empty)).2 := by
  have hlit : MerkleTree.new lh ph 4 [l0, l1, l2, l3] =
      Except.ok (⟨4, 4, [ph.hash (ph.hash (lh.hash l0) (lh.hash l1))
        (ph.hash (lh.hash l2) (lh.hash l3)),
        ph.hash (lh.hash l0) (lh.hash l1), ph.hash (lh.hash l2) (lh.hash l3),
        lh.hash l0, lh.hash l1, lh.hash l2, lh.hash l3],
        [(ph.hash (ph.hash (ph.hash (lh.hash l0) (lh.hash l1))
          (ph.hash (lh.hash l2) (lh.hash l3))) ph.hash_empty,
          ph.hash_empty)]⟩ : MerkleTree β) := by
    unfold MerkleTree.new
    norm_num [effectiveDepth, ceilLog2, clog2Aux]
    all_goals and_intros <;> rfl
  obtain rfl := Except.ok.inj (hlit.symm.trans h)
  refine ⟨rfl, ?_, rfl, rfl, ?_⟩
  · norm_num [effectiveDepth, ceilLog2, clog2Aux]
  · unfold MerkleTree.root
    norm_num [effectiveDepth, ceilLog2, clog2Aux]

/-! ### Concrete instantiations of the claims -/

theorem claim_c1_witness :
    ∃ p, MerkleTree.prove natLeafHasher natPathHasher
        (⟨3, 2, [509, 101, 102], [(1019, 0)]⟩ : MerkleTree Nat) 0
        (([1, 2] : List Nat).getD 0 0) = .ok p ∧
      p.verify natLeafHasher natPathHasher
        (MerkleTree.root natPathHasher
          (⟨3, 2, [509, 101, 102], [(1019, 0)]⟩ : MerkleTree Nat))
        (([1, 2] : List Nat).getD 0 0) = true :=
  (claim_c1_membership_soundness natLeafHasher natPathHasher 3 (by norm_num)
    [1, 2] (by norm_num) ⟨3, 2, [509, 101, 102], [(1019, 0)]⟩ rfl 0).1 0 (by decide)

theorem claim_c2_witness :
    MerkleProof.verify natLeafHasher natPathHasher
      (⟨0, [102, 0, 0]⟩ : MerkleProof Nat) 0 1 = false :=
  claim_c2_root_rejection natLeafHasher natPathHasher
    ⟨3, 2, [509, 101, 102], [(1019, 0)]⟩
    (wf_new natLeafHasher natPathHasher 3 [1, 2]
      ⟨3, 2, [509, 101, 102], [(1019, 0)]⟩ rfl).1
    0 1 ⟨0, [102, 0, 0]⟩ rfl 0 (by decide)

theorem claim_c3_witness :
    MerkleTree.new natLeafHasher natPathHasher 0 ([7] : List Nat) =
        .error .invalidDepth ∧
      MerkleTree.new natLeafHasher natPathHasher 1 ([7, 8, 9] : List Nat) =
        .error .capacityExceeded ∧
      ∃ t, MerkleTree.new natLeafHasher natPathHasher 1 ([7, 8] : List Nat) = .ok t :=
  ⟨(claim_c3_construction_guards natLeafHasher natPathHasher 0 [7]).1 rfl,
    (claim_c3_construction_guards natLeafHasher natPathHasher 1 [7, 8, 9]).2.1
      (by norm_num) (by norm_num),
    (claim_c3_construction_guards natLeafHasher natPathHasher 1 [7, 8]).2.2
      (by norm_num) (by norm_num)⟩

theorem claim_c4_witness :
    MerkleTree.append natLeafHasher natPathHasher
      (⟨1, 2, [509, 101, 102], []⟩ : MerkleTree Nat) [3] =
      .error .capacityExceeded :=
  (claim_c4_append_capacity natLeafHasher natPathHasher
    ⟨1, 2, [509, 101, 102], []⟩ [3]
    (wf_new natLeafHasher natPathHasher 1 [1, 2] ⟨1, 2, [509, 101, 102], []⟩ rfl).1).1
    (by decide)

theorem claim_c5_witness :
    (⟨2, 4, [2576, 509, 519, 101, 102, 103, 104], []⟩ : MerkleTree Nat).tree.length = 7 ∧
    (⟨2, 4, [2576, 509, 519, 101, 102, 103, 104], []⟩ : MerkleTree Nat).tree =
      [2576, 509, 519, 101, 102, 103, 104] ∧
    MerkleTree.root natPathHasher
      (⟨2, 4, [2576, 509, 519, 101, 102, 103, 104], []⟩ : MerkleTree Nat) = 2576 ∧
    (⟨2, 4, [2576, 509, 519, 101, 102, 103, 104], []⟩ : MerkleTree Nat).tree.getD 0 0 =
      MerkleTree.root natPathHasher
        (⟨2, 4, [2576, 509, 519, 101, 102, 103, 104], []⟩ : MerkleTree Nat) :=
  claim_c5_depth2_layout natLeafHasher natPathHasher 1 2 3 4
    ⟨2, 4, [2576, 509, 519, 101, 102, 103, 104], []⟩ rfl

theorem claim_c6_witness :
    (⟨3, 4, [2576, 509, 519, 101, 102, 103, 104], []⟩ : MerkleTree Nat).tree.length = 7 ∧
    (⟨3, 4, [2576, 509, 519, 101, 102, 103, 104], []⟩ : MerkleTree Nat).padding_tree.length = 0 ∧
    effectiveDepth (⟨3, 4, [2576, 509, 519, 101, 102, 103, 104], []⟩ :
      MerkleTree Nat).number_of_leaves = 2 ∧
    (⟨3, 5, [6431, 2576, 426, 509, 519, 211, 1, 101, 102, 103, 104, 105, 0, 0, 0], []⟩ :
      MerkleTree Nat).tree.length = 15 ∧
    (⟨3, 5, [6431, 2576, 426, 509, 519, 211, 1, 101, 102, 103, 104, 105, 0, 0, 0], []⟩ :
      MerkleTree Nat).padding_tree.length = 0 ∧
    (⟨3, 5, [6431, 2576, 426, 509, 519, 211, 1, 101, 102, 103, 104, 105, 0, 0, 0], []⟩ :
      MerkleTree Nat).number_of_leaves = 5 ∧
    effectiveDepth (⟨3, 5, [6431, 2576, 426, 509, 519, 211, 1, 101, 102, 103, 104, 105,
      0, 0, 0], []⟩ : MerkleTree Nat).number_of_leaves = 3 ∧
    (⟨3, 5, [6431, 2576, 426, 509, 519, 211, 1, 101, 102, 103, 104, 105, 0, 0, 0], []⟩ :
      MerkleTree Nat).tree.drop 7 = [101, 102, 103, 104, 105, 0, 0, 0] :=
  claim_c6_depth3_append_growth natLeafHasher natPathHasher 1 2 3 4 5
    ⟨3, 4, [2576, 509, 519, 101, 102, 103, 104], []⟩
    ⟨3, 5, [6431, 2576, 426, 509, 519, 211, 1, 101, 102, 103, 104, 105, 0, 0, 0], []⟩
    rfl rfl

theorem claim_c7_witness :
    (⟨4, 4, [2576, 509, 519, 101, 102, 103, 104], [(5153, 0)]⟩ :
      MerkleTree Nat).tree.length = 7 ∧
    effectiveDepth (⟨4, 4, [2576, 509, 519, 101, 102, 103, 104], [(5153, 0)]⟩ :
      MerkleTree Nat).number_of_leaves = 2 ∧
    (⟨4, 4, [2576, 509, 519, 101, 102, 103, 104], [(5153, 0)]⟩ :
      MerkleTree Nat).padding_tree.length = 1 ∧
    (⟨4, 4, [2576, 509, 519, 101, 102, 103, 104], [(5153, 0)]⟩ :
      MerkleTree Nat).padding_tree.getD 0 (0, 0) = (5153, 0) ∧
    MerkleTree.root natPathHasher
      (⟨4, 4, [2576, 509, 519, 101, 102, 103, 104], [(5153, 0)]⟩ :
        MerkleTree Nat) = 10307 :=
  claim_c7_depth4_padding natLeafHasher natPathHasher 1 2 3 4
    ⟨4, 4, [2576, 509, 519, 101, 102, 103, 104], [(5153, 0)]⟩ rfl

theorem claim_c8_witness :
    ∃ t2, MerkleTree.append natLeafHasher natPathHasher
        (⟨3, 2, [509, 101, 102], [(1019, 0)]⟩ : MerkleTree Nat) ([] : List Nat) =
        .ok t2 ∧
      MerkleTree.root natPathHasher t2 =
        MerkleTree.root natPathHasher
          (⟨3, 2, [509, 101, 102], [(1019, 0)]⟩ : MerkleTree Nat) :=
  (claim_c8_append_monotonicity natLeafHasher natPathHasher
    ⟨3, 2, [509, 101, 102], [(1019, 0)]⟩
    (wf_new natLeafHasher natPathHasher 3 [1, 2]
      ⟨3, 2, [509, 101, 102], [(1019, 0)]⟩ rfl).1).1

theorem claim_c9_witness :
    (⟨0, [102, 0, 0]⟩ : MerkleProof Nat).siblings.length =
      (⟨3, 2, [509, 101, 102], [(1019, 0)]⟩ : MerkleTree Nat).depth :=
  claim_c9_proof_length natLeafHasher natPathHasher
    ⟨3, 2, [509, 101, 102], [(1019, 0)]⟩
    (wf_new natLeafHasher natPathHasher 3 [1, 2]
      ⟨3, 2, [509, 101, 102], [(1019, 0)]⟩ rfl).1
    0 1 ⟨0, [102, 0, 0]⟩ rfl

theorem claim_c10_witness :
    ((5153 : Nat), (0 : Nat)).2 = natPathHasher.hash_empty :=
  (claim_c10_padding_snd natLeafHasher natPathHasher 4 [1, 2, 3, 4]
    ⟨4, 4, [2576, 509, 519, 101, 102, 103, 104], [(5153, 0)]⟩ rfl
    ⟨4, 4, [2576, 509, 519, 101, 102, 103, 104], [(5153, 0)]⟩ [5]
    ⟨4, 5, [6431, 2576, 426, 509, 519, 211, 1, 101, 102, 103, 104, 105, 0, 0, 0], []⟩
    (wf_new natLeafHasher natPathHasher 4 [1, 2, 3, 4]
      ⟨4, 4, [2576, 509, 519, 101, 102, 103, 104], [(5153, 0)]⟩ rfl).1 rfl).1
    (5153, 0) (by decide)

end SnarkVM
